import Mathlib

/-!
Verification of `src/unique_files.py` against its specification.

The program compares N input directories and reports, per directory, the
files unique to it, either by filename (`main`, lines 150-158 together with
`get_all_files_recursive`, lines 26-40) or by content hash
(`get_unique_files_by_content`, lines 42-69).

Shallow embedding conventions:
* A filesystem entry is everything the Python code observes about one path
  yielded by `Path.rglob('*')`: its components relative to the scanned root
  (`comps`, nonempty; the last component is `Path.name`), the result of
  `is_file()` (which follows symlinks), whether the entry is a symlink, its
  byte content, and whether it can be opened and read.
  `Path.rglob('*')` enumerates every descendant of the root, including
  entries inside dot-prefixed directories: pathlib glob patterns are
  fnmatch-translated and match hidden names, and the recursive `**` selector
  descends into every subdirectory without a dot check.  A root's `entries`
  list is therefore the full recursive listing.
* A `World` gives, for each resolved absolute directory path, whether
  `is_dir()` holds and what `rglob` yields there.  `main` resolves its
  arguments before any scan (line 137), so directory paths in the model are
  already resolved and compared by plain equality, as Python compares
  resolved `Path` values.
* The MD5 digest of line 16 is modelled as an injective fingerprint of the
  file's bytes: two files get the same hash exactly when their content is
  byte-identical, which is how the spec itself treats the digest.
-/

/-- Components of a resolved absolute directory path. -/
abbrev DirPath := List String

/-- One filesystem entry as observed by the Python code (see the header
comment): path components under the scanned root, `is_file()`, symlink
status, content and readability. -/
structure FSEntry where
  comps : List String
  isFile : Bool
  isSymlink : Bool
  content : String
  readable : Bool
deriving DecidableEq

/-- The final path component, `Path.name` in the source. -/
def FSEntry.name (e : FSEntry) : String := e.comps.getLastD ""

/-- Replace the symlink flag of an entry, keeping everything the scan filter
looks at unchanged. -/
def FSEntry.setSym (e : FSEntry) (b : Bool) : FSEntry :=
  FSEntry.mk e.comps e.isFile b e.content e.readable

/-- A filesystem state: which resolved paths are directories, and the full
recursive `rglob('*')` listing of each. -/
structure World where
  isDir : DirPath → Bool
  entries : DirPath → List FSEntry

/-- Rewrite every entry's symlink flag in a world. -/
def World.mapSym (w : World) (f : FSEntry → Bool) : World :=
  World.mk w.isDir (fun d => (w.entries d).map (fun e => e.setSym (f e)))

/-- Render a path, components joined by the separator. -/
def pathStr (p : DirPath) : String := String.intercalate "/" p

/-- Python's `name.startswith('.')`: the first character is a dot (for a
one-character prefix the library test is exactly a first-character test;
an empty string yields False). -/
def startsWithDot (s : String) : Bool :=
  match s.data with
  | [] => false
  | c :: _ => c == '.'

/-- The scan filter of lines 36-37 and 52-53: an entry is kept iff it is a
file and its final name does not start with a dot.  Only the final
component is tested; ancestors are not. -/
def visible (e : FSEntry) : Bool := e.isFile && !(startsWithDot e.name)

/-- All entries of one root that survive the scan filter (the body of the
`rglob` loops at lines 35-38 and 51-53). -/
def visibleFiles (w : World) (d : DirPath) : List FSEntry :=
  (w.entries d).filter visible

/-- The set of filenames collected for one root by `get_all_files_recursive`
(lines 34-38): basenames of the visible files, as a Python `set`. -/
def scanNames (w : World) (d : DirPath) : Finset String :=
  ((visibleFiles w d).map FSEntry.name).toFinset

/-- The diagnostics printed by `get_all_files_recursive` (line 32) for the
inputs that are not directories.  Quote marks around the path are elided. -/
def scanErrors (w : World) (dirs : List DirPath) : List String :=
  (dirs.filter (fun d => !w.isDir d)).map
    (fun d => "Error: " ++ pathStr d ++ " is not a directory.")

/-- The dict built by `get_all_files_recursive` (lines 26-40): one bucket per
valid input directory (a Python dict deduplicates equal keys; the value at a
key depends only on the key, so dedup order is immaterial), mapping it to
its scanned name set. -/
def get_all_files_recursive (w : World) (dirs : List DirPath) :
    List (DirPath × Finset String) :=
  ((dirs.filter w.isDir).dedup).map (fun d => (d, scanNames w d))

/-- Name mode (main, lines 150-158): the unique set of directory `d` is its
scanned names minus the union of the scanned names of every other dict key,
the dict keys being the valid input directories. -/
def uniqueByName (w : World) (dirs : List DirPath) (d : DirPath) : Finset String :=
  scanNames w d \ ((dirs.filter w.isDir).toFinset.erase d).biUnion (scanNames w)

/-- Model of `calculate_file_hash` (lines 14-24): the streamed MD5 digest is
an injective fingerprint of the content, so it is modelled by the content
itself; an unreadable file raises OSError or PermissionError, a warning is
printed to stderr (see `hashWarnings`) and `None` is returned. -/
def calculate_file_hash (e : FSEntry) : Option String :=
  if e.readable then some e.content else none

/-- The stderr warning of line 23 for one unreadable path; the OS error text
appended after the path is elided. -/
def warningMsg (p : DirPath) : String := "Warning: Could not read " ++ pathStr p

/-- All warnings emitted while hashing (line 23): one per visible but
unreadable file of each valid directory, naming the file's path. -/
def hashWarnings (w : World) (dirs : List DirPath) : List String :=
  (dirs.filter w.isDir).flatMap (fun d =>
    ((visibleFiles w d).filter (fun e => !e.readable)).map
      (fun e => warningMsg (d ++ e.comps)))

/-- An occurrence recorded in `content_map` (line 56): the scanned root
together with the file entry found under it. -/
structure Occ where
  root : DirPath
  entry : FSEntry
deriving DecidableEq

/-- Absolute path of the occurrence, root concatenated with the components. -/
def Occ.abs (o : Occ) : DirPath := o.root ++ o.entry.comps

/-- The `file_path.parent` of line 66, already resolved. -/
def Occ.parent (o : Occ) : DirPath := (o.abs).dropLast

/-- The flattened `content_map` of lines 44-56: every (hash, occurrence)
pair for the visible files of the valid directories whose hash was computed
successfully.  The Python dict groups these pairs by hash; grouping is
recovered here by filtering on the first component. -/
def contentOccs (w : World) (dirs : List DirPath) : List (String × Occ) :=
  (dirs.filter w.isDir).flatMap (fun d =>
    (visibleFiles w d).filterMap (fun e =>
      (calculate_file_hash e).map (fun h => (h, Occ.mk d e))))

/-- The `dirs_present` set of line 62 for one hash: the roots of all its
occurrences. -/
def hashDirs (w : World) (dirs : List DirPath) (h : String) : Finset DirPath :=
  (((contentOccs w dirs).filter (fun p => p.1 == h)).map (fun p => p.2.root)).toFinset

/-- Content mode, `get_unique_files_by_content` lines 58-69: a filename is
added to directory `d`'s set iff some successfully hashed occurrence bears
it, its hash's `dirs_present` has exactly one element (necessarily the
occurrence's own root, which is then the popped `unique_dir`, line 64),
that root is `d`, and the file's parent directory is one of the input
directories (line 66). -/
def get_unique_files_by_content (w : World) (dirs : List DirPath) (d : DirPath) :
    Finset String :=
  (((contentOccs w dirs).filter (fun p =>
      decide ((hashDirs w dirs p.1).card = 1 ∧ p.2.root = d ∧ p.2.parent ∈ dirs))).map
    (fun p => p.2.entry.name)).toFinset

/-- The option flags accepted by the argument parser (lines 124-129): only
`--by-content`; the positional `directories` and auto-generated help are the
rest of the surface. -/
def cliOptionFlags : List String := ["--by-content"]

/-- First diagnostic of `main` (line 134). -/
def mainErrFew : String := "Error: At least 2 directories required."

/-- Second diagnostic of `main` (line 141). -/
def mainErrFewValid : String := "Error: At least 2 valid directories are required."

/-- Outcome of one program run: process exit code, stderr lines, and the
directories actually compared. -/
structure RunResult where
  exitCode : Nat
  stderr : List String
  compared : List DirPath
deriving DecidableEq

/-- Model of `main` (lines 123-160): fewer than 2 arguments aborts with
code 1; arguments are resolved, the non-directories among them are dropped
without any per-path diagnostic (line 138); fewer than 2 survivors aborts
with code 1; otherwise the comparison runs over the valid directories and
the process exits 0.  On stderr a successful run carries only the hashing
warnings (content mode) or the diagnostics of `get_all_files_recursive`
applied to the valid directories (name mode, hence none).  The source
function is called `main`; that identifier is reserved in Lean, hence the
suffix. -/
def mainRun (w : World) (args : List DirPath) (byContent : Bool) : RunResult :=
  if args.length < 2 then RunResult.mk 1 [mainErrFew] []
  else
    if (args.filter w.isDir).length < 2 then RunResult.mk 1 [mainErrFewValid] []
    else
      RunResult.mk 0
        (if byContent then hashWarnings w (args.filter w.isDir)
         else scanErrors w (args.filter w.isDir))
        (args.filter w.isDir)

/-- The `Path.name` of a directory path, used as the sort key of line 78. -/
def dirName (d : DirPath) : String := d.getLastD ""

/-- The `sorted_dirs` of line 78: directories sorted by final name
(Python's stable sort; `mergeSort` is stable). -/
def sortedDirs (dirs : List DirPath) : List DirPath :=
  dirs.mergeSort (fun a b => decide (dirName a ≤ dirName b))

/-- The `all_unique_files` set of lines 82-85 before sorting: the union of
every directory's unique set. -/
def allUniqueNames (dirs : List DirPath) (uniq : DirPath → Finset String) :
    Finset String :=
  dirs.foldr (fun d acc => uniq d ∪ acc) ∅

/-- The sequence of filenames the report lists (lines 82-85 and 100-116):
the sorted `all_unique_files`; every element is printed as one row. -/
def reportRows (dirs : List DirPath) (uniq : DirPath → Finset String) : List String :=
  (allUniqueNames dirs uniq).sort (· ≤ ·)

/-- The footer counts of line 119: for each sorted directory, the size of
its unique set (`len` of the Python set). -/
def reportCounts (dirs : List DirPath) (uniq : DirPath → Finset String) : List Nat :=
  (sortedDirs dirs).map (fun d => (uniq d).card)

/-- Observable content of `print_side_by_side_comparison` (lines 71-121):
the listed rows and the footer counts. -/
structure Report where
  rows : List String
  counts : List Nat
deriving DecidableEq

/-- Model of `print_side_by_side_comparison`. -/
def print_side_by_side_comparison (dirs : List DirPath)
    (uniq : DirPath → Finset String) : Report :=
  Report.mk (reportRows dirs uniq) (reportCounts dirs uniq)

/-- A world is consistent over the given roots when two scans that reach the
same absolute path see the same file content, as they do on a real
filesystem (one root may be nested inside another, or listed twice). -/
abbrev ContentConsistent (w : World) (dirs : List DirPath) : Prop :=
  ∀ r1 ∈ dirs, ∀ r2 ∈ dirs, ∀ e1 ∈ w.entries r1, ∀ e2 ∈ w.entries r2,
    r1 ++ e1.comps = r2 ++ e2.comps → e1.content = e2.content

/-- The event of line 67 at path granularity: the file at absolute path `p`
causes its filename to be added to directory `d`'s unique set, because some
hashed occurrence at `p` has a single-directory hash bucket rooted at `d`
and its parent is an input directory. -/
def contentAssigns (w : World) (dirs : List DirPath) (p : DirPath) (d : DirPath) : Prop :=
  ∃ h o, (h, o) ∈ contentOccs w dirs ∧ o.abs = p ∧
    (hashDirs w dirs h).card = 1 ∧ o.root = d ∧ o.parent ∈ dirs

/-! Concrete worlds used by witnesses and counterexamples.  Each models a
small filesystem; directory paths are single-component resolved roots. -/

/-- Name-mode scenario of spec section 8: dirA has a.txt(X), b.txt(Y); dirB
has a.txt(X), c.txt(Z). -/
def W1 : World :=
  World.mk (fun d => decide (d = ["dirA"] ∨ d = ["dirB"]))
    (fun d =>
      if d = ["dirA"] then
        [FSEntry.mk ["a.txt"] true false "X" true,
         FSEntry.mk ["b.txt"] true false "Y" true]
      else if d = ["dirB"] then
        [FSEntry.mk ["a.txt"] true false "X" true,
         FSEntry.mk ["c.txt"] true false "Z" true]
      else [])

/-- The nested file of root nA, content P, lying in subdirectory sub. -/
def nestedF : FSEntry := FSEntry.mk ["sub", "f.txt"] true false "P" true

/-- Nested-content scenario: root nA holds sub/f.txt(P) inside a
subdirectory; root nB holds g.txt(Q) at top level. -/
def W2 : World :=
  World.mk (fun d => decide (d = ["nA"] ∨ d = ["nB"]))
    (fun d =>
      if d = ["nA"] then
        [FSEntry.mk ["sub"] false false "" true, nestedF]
      else if d = ["nB"] then
        [FSEntry.mk ["g.txt"] true false "Q" true]
      else [])

/-- The file cA/x.txt with content P. -/
def xP : FSEntry := FSEntry.mk ["x.txt"] true false "P" true

/-- The file cB/y.txt with content P, same bytes as `xP` under another
name. -/
def yP : FSEntry := FSEntry.mk ["y.txt"] true false "P" true

/-- Renamed-duplicate scenario of spec section 8: cA holds x.txt(P); cB
holds y.txt(P) and g.txt(Q). -/
def W3 : World :=
  World.mk (fun d => decide (d = ["cA"] ∨ d = ["cB"]))
    (fun d =>
      if d = ["cA"] then [xP]
      else if d = ["cB"] then
        [yP, FSEntry.mk ["g.txt"] true false "Q" true]
      else [])

/-- A visible file living underneath the hidden directory .hid of root hA. -/
def hiddenNestedF : FSEntry := FSEntry.mk [".hid", "vis.txt"] true false "V" true

/-- Hidden-name scenario: root hA holds the hidden directory .hid, the file
.hid/vis.txt inside it, and the hidden file .secret.txt; root hB holds
b.txt. -/
def W5 : World :=
  World.mk (fun d => decide (d = ["hA"] ∨ d = ["hB"]))
    (fun d =>
      if d = ["hA"] then
        [FSEntry.mk [".hid"] false false "" true, hiddenNestedF,
         FSEntry.mk [".secret.txt"] true false "S" true]
      else if d = ["hB"] then
        [FSEntry.mk ["b.txt"] true false "B" true]
      else [])

/-- A symlink to a regular file: `is_file()` follows the link and reports
true. -/
def linkF : FSEntry := FSEntry.mk ["link.txt"] true true "S" true

/-- Symlink scenario: root sA holds the symlinked file link.txt; root sB
holds b.txt. -/
def W6 : World :=
  World.mk (fun d => decide (d = ["sA"] ∨ d = ["sB"]))
    (fun d =>
      if d = ["sA"] then [linkF]
      else if d = ["sB"] then [FSEntry.mk ["b.txt"] true false "B" true]
      else [])

/-- A file that cannot be opened for reading. -/
def badF : FSEntry := FSEntry.mk ["bad.txt"] true false "P" false

/-- Unreadable-file scenario: root rA holds the unreadable bad.txt and the
readable good.txt(G); root rB holds b.txt(H). -/
def W7 : World :=
  World.mk (fun d => decide (d = ["rA"] ∨ d = ["rB"]))
    (fun d =>
      if d = ["rA"] then
        [badF, FSEntry.mk ["good.txt"] true false "G" true]
      else if d = ["rB"] then
        [FSEntry.mk ["b.txt"] true false "H" true]
      else [])

/-- Exit-behavior scenario: vA and vB are directories, anything else is
not. -/
def W8 : World :=
  World.mk (fun d => decide (d = ["vA"] ∨ d = ["vB"])) (fun _ => [])

/-- Fifty-one distinct filenames, enough to overflow a 50-entry display
cap. -/
def names51 : List String := (List.range 51).map (fun i => "f" ++ toString i)

/-- A unique-set assignment giving directory A9 fifty-one unique
filenames. -/
def u9 : DirPath → Finset String :=
  fun d => if d = ["A9"] then names51.toFinset else ∅

/-! Shared characterization lemmas for the embedded operations. -/

/-- Membership in one root's scanned name set: some entry of the listing is
a file, has a non-hidden final name, and bears that name. -/
theorem mem_scanNames {w : World} {d : DirPath} {n : String} :
    n ∈ scanNames w d ↔ ∃ e ∈ w.entries d, visible e = true ∧ e.name = n := by
  simp [scanNames, visibleFiles, List.mem_filter, and_assoc]

/-- Membership in the name-mode unique set: scanned under `d` and under no
other valid input directory. -/
theorem mem_uniqueByName {w : World} {dirs : List DirPath} {d : DirPath} {f : String} :
    f ∈ uniqueByName w dirs d ↔
      f ∈ scanNames w d ∧
        ∀ x ∈ dirs, w.isDir x = true → x ≠ d → f ∉ scanNames w x := by
  simp only [uniqueByName, Finset.mem_sdiff, Finset.mem_biUnion, Finset.mem_erase,
    List.mem_toFinset, List.mem_filter]
  constructor
  · rintro ⟨h1, h2⟩
    refine ⟨h1, fun x hx hdx hne hf => h2 ⟨x, ⟨hne, hx, hdx⟩, hf⟩⟩
  · rintro ⟨h1, h2⟩
    refine ⟨h1, fun hex => ?_⟩
    obtain ⟨x, ⟨hne, hx, hdx⟩, hf⟩ := hex
    exact h2 x hx hdx hne hf

/-- Membership in the flattened content map: the occurrence's root is a
valid input directory, the entry is one of its visible listed files, and
its hash was computed successfully as `h`. -/
theorem mem_contentOccs {w : World} {dirs : List DirPath} {h : String} {o : Occ} :
    (h, o) ∈ contentOccs w dirs ↔
      o.root ∈ dirs ∧ w.isDir o.root = true ∧ o.entry ∈ w.entries o.root ∧
        visible o.entry = true ∧ calculate_file_hash o.entry = some h := by
  simp only [contentOccs, List.mem_flatMap, List.mem_filter, visibleFiles,
    List.mem_filterMap, Option.map_eq_some']
  constructor
  · rintro ⟨d, ⟨hd, hdir⟩, e, ⟨he, hvis⟩, a, hha, heq⟩
    injection heq with heq1 heq2
    subst heq1
    subst heq2
    exact ⟨hd, hdir, he, hvis, hha⟩
  · rintro ⟨hd, hdir, he, hvis, hha⟩
    exact ⟨o.root, ⟨hd, hdir⟩, o.entry, ⟨he, hvis⟩, h, hha, rfl⟩

/-- Membership in a hash's `dirs_present` set. -/
theorem mem_hashDirs {w : World} {dirs : List DirPath} {h : String} {r : DirPath} :
    r ∈ hashDirs w dirs h ↔
      ∃ o : Occ, (h, o) ∈ contentOccs w dirs ∧ o.root = r := by
  simp only [hashDirs, List.mem_toFinset, List.mem_map, List.mem_filter, beq_iff_eq]
  constructor
  · rintro ⟨p, ⟨hp, hph⟩, hr⟩
    refine ⟨p.2, ?_, hr⟩
    rw [← hph]
    exact hp
  · rintro ⟨o, ho, hr⟩
    exact ⟨(h, o), ⟨ho, rfl⟩, hr⟩

/-- Membership in a content-mode unique set: witnessed by a hashed
occurrence whose bucket spans exactly one directory, rooted at `d`, whose
parent is an input directory, and which bears the name. -/
theorem mem_uniqueContent {w : World} {dirs : List DirPath} {d : DirPath} {n : String} :
    n ∈ get_unique_files_by_content w dirs d ↔
      ∃ p ∈ contentOccs w dirs,
        (hashDirs w dirs p.1).card = 1 ∧ p.2.root = d ∧ p.2.parent ∈ dirs ∧
          p.2.entry.name = n := by
  simp [get_unique_files_by_content, List.mem_filter, and_assoc]

/-- A hash bucket containing occurrences rooted at two distinct directories
does not have exactly one directory present. -/
theorem hashDirs_card_ne_one {w : World} {dirs : List DirPath} {h : String}
    {r1 r2 : DirPath} (h1 : r1 ∈ hashDirs w dirs h) (h2 : r2 ∈ hashDirs w dirs h)
    (hne : r1 ≠ r2) : (hashDirs w dirs h).card ≠ 1 := by
  intro hc
  obtain ⟨a, ha⟩ := Finset.card_eq_one.mp hc
  rw [ha, Finset.mem_singleton] at h1 h2
  exact hne (h1.trans h2.symm)

/-- A successfully hashed file is readable, and the modelled digest is its
content. -/
theorem hash_some {e : FSEntry} {h : String} (hh : calculate_file_hash e = some h) :
    e.readable = true ∧ h = e.content := by
  by_cases hr : e.readable = true
  · refine ⟨hr, ?_⟩
    rw [calculate_file_hash, if_pos hr] at hh
    exact (Option.some_inj.mp hh).symm
  · rw [calculate_file_hash, if_neg hr] at hh
    cases hh

/-- Every name in the union the report draws from comes from some listed
directory's set, and conversely. -/
theorem mem_allUniqueNames {dirs : List DirPath} {uniq : DirPath → Finset String}
    {n : String} :
    n ∈ allUniqueNames dirs uniq ↔ ∃ d ∈ dirs, n ∈ uniq d := by
  induction dirs with
  | nil => simp [allUniqueNames]
  | cons a t ih =>
    simp only [allUniqueNames, List.foldr_cons, Finset.mem_union, List.mem_cons]
    rw [show (t.foldr (fun d acc => uniq d ∪ acc) ∅) = allUniqueNames t uniq from rfl] at *
    constructor
    · rintro (h | h)
      · exact ⟨a, Or.inl rfl, h⟩
      · obtain ⟨d, hd, hn⟩ := ih.mp h
        exact ⟨d, Or.inr hd, hn⟩
    · rintro ⟨d, (rfl | hd), hn⟩
      · exact Or.inl hn
      · exact Or.inr (ih.mpr ⟨d, hd, hn⟩)

/-! Claim theorems. -/

/-- C1: in name mode, for every input directory d and filename f, f is in
d's unique set iff some file named f (exact, case-sensitive basename match)
was scanned under d and no file named f was scanned under any other input
directory; consequently a filename scanned in two or more input directories
appears in no directory's unique set. -/
theorem C1_name_mode_unique_iff (w : World) (dirs : List DirPath)
    (hv : ∀ x ∈ dirs, w.isDir x = true) (d : DirPath) (hd : d ∈ dirs) (f : String) :
    (f ∈ uniqueByName w dirs d ↔
      f ∈ scanNames w d ∧ ∀ x ∈ dirs, x ≠ d → f ∉ scanNames w x)
    ∧ (∀ d1 ∈ dirs, ∀ d2 ∈ dirs, d1 ≠ d2 →
        f ∈ scanNames w d1 → f ∈ scanNames w d2 → f ∉ uniqueByName w dirs d) := by
  have hiff : f ∈ uniqueByName w dirs d ↔
      f ∈ scanNames w d ∧ ∀ x ∈ dirs, x ≠ d → f ∉ scanNames w x := by
    rw [mem_uniqueByName]
    constructor
    · rintro ⟨h1, h2⟩
      exact ⟨h1, fun x hx hne => h2 x hx (hv x hx) hne⟩
    · rintro ⟨h1, h2⟩
      exact ⟨h1, fun x hx _ hne => h2 x hx hne⟩
  refine ⟨hiff, ?_⟩
  intro d1 hd1 d2 hd2 hne hf1 hf2 hmem
  obtain ⟨hs, hall⟩ := hiff.mp hmem
  by_cases h1d : d1 = d
  · subst h1d
    exact hall d2 hd2 (fun h => hne h.symm) hf2
  · exact hall d1 hd1 h1d hf1

/-- Witness for C1 at the spec's name-mode scenario: b.txt, scanned only in
dirA, is reported unique to dirA. -/
theorem C1_witness :
    "b.txt" ∈ uniqueByName W1 [["dirA"], ["dirB"]] ["dirA"] :=
  (C1_name_mode_unique_iff W1 [["dirA"], ["dirB"]] (by decide) ["dirA"] (by decide)
    "b.txt").1.mpr ⟨by decide, by decide⟩

/-- C7: an unreadable file produces a stderr warning naming its path, its
hash is unavailable (None), it enters no bucket of the content index — so it
is counted neither unique nor duplicate — and every other readable visible
file of a valid directory is still indexed. -/
theorem C7_unreadable_isolated (w : World) (dirs : List DirPath) (d : DirPath)
    (e : FSEntry) (hd : d ∈ dirs) (hdir : w.isDir d = true)
    (he : e ∈ w.entries d) (hvis : visible e = true) (hun : e.readable = false) :
    warningMsg (d ++ e.comps) ∈ hashWarnings w dirs
    ∧ calculate_file_hash e = none
    ∧ (∀ h : String, ∀ o : Occ, (h, o) ∈ contentOccs w dirs → o.entry ≠ e)
    ∧ (∀ e' : FSEntry, ∀ d' ∈ dirs, w.isDir d' = true → e' ∈ w.entries d' →
        visible e' = true → e'.readable = true →
        (e'.content, Occ.mk d' e') ∈ contentOccs w dirs) := by
  refine ⟨?_, ?_, ?_, ?_⟩
  · simp only [hashWarnings, List.mem_flatMap, List.mem_map]
    refine ⟨d, List.mem_filter.mpr ⟨hd, hdir⟩, e, ?_, rfl⟩
    refine List.mem_filter.mpr ⟨?_, by simp [hun]⟩
    exact List.mem_filter.mpr ⟨he, hvis⟩
  · simp [calculate_file_hash, hun]
  · intro h o ho heq
    obtain ⟨_, _, _, _, hh⟩ := mem_contentOccs.mp ho
    obtain ⟨hr, _⟩ := hash_some hh
    rw [heq, hun] at hr
    simp at hr
  · intro e' d' hd' hdir' he' hvis' hre'
    exact mem_contentOccs.mpr ⟨hd', hdir', he', hvis', by simp [calculate_file_hash, hre']⟩

/-- Witness for C7: the unreadable rA/bad.txt gets a warning and no hash. -/
theorem C7_witness :
    warningMsg (["rA"] ++ badF.comps) ∈ hashWarnings W7 [["rA"], ["rB"]]
    ∧ calculate_file_hash badF = none :=
  ⟨(C7_unreadable_isolated W7 [["rA"], ["rB"]] ["rA"] badF (by decide) (by decide)
      (by decide) (by decide) (by decide)).1,
   (C7_unreadable_isolated W7 [["rA"], ["rB"]] ["rA"] badF (by decide) (by decide)
      (by decide) (by decide) (by decide)).2.1⟩

/-- C10: per run, in name mode a filename belongs to at most one valid input
directory's unique set; in content mode (on a consistent filesystem) each
file path triggers an addition to at most one directory's unique set. -/
theorem C10_at_most_one (w : World) (dirs : List DirPath)
    (hv : ∀ x ∈ dirs, w.isDir x = true) (hc : ContentConsistent w dirs) :
    (∀ f : String, ∀ d1 ∈ dirs, ∀ d2 ∈ dirs,
        f ∈ uniqueByName w dirs d1 → f ∈ uniqueByName w dirs d2 → d1 = d2)
    ∧ (∀ p d1 d2 : DirPath,
        contentAssigns w dirs p d1 → contentAssigns w dirs p d2 → d1 = d2) := by
  constructor
  · intro f d1 hd1 d2 hd2 hf1 hf2
    by_contra hne
    obtain ⟨hs1, hall1⟩ := mem_uniqueByName.mp hf1
    obtain ⟨hs2, _⟩ := mem_uniqueByName.mp hf2
    exact hall1 d2 hd2 (hv d2 hd2) (fun h => hne h.symm) hs2
  · intro p d1 d2 ha1 ha2
    obtain ⟨h1, o1, ho1, habs1, hcard1, hroot1, _⟩ := ha1
    obtain ⟨h2, o2, ho2, habs2, hcard2, hroot2, _⟩ := ha2
    obtain ⟨hr1, hdir1, he1, hvis1, hh1⟩ := mem_contentOccs.mp ho1
    obtain ⟨hr2, hdir2, he2, hvis2, hh2⟩ := mem_contentOccs.mp ho2
    obtain ⟨_, hc1⟩ := hash_some hh1
    obtain ⟨_, hc2⟩ := hash_some hh2
    have habs : o1.root ++ o1.entry.comps = o2.root ++ o2.entry.comps := by
      have h12 := habs1.trans habs2.symm
      simpa [Occ.abs] using h12
    have hcont : o1.entry.content = o2.entry.content :=
      hc o1.root hr1 o2.root hr2 o1.entry he1 o2.entry he2 habs
    have hhash : h1 = h2 := by rw [hc1, hc2, hcont]
    have ho2x : (h1, o2) ∈ contentOccs w dirs := by rw [hhash]; exact ho2
    have hmem1 : o1.root ∈ hashDirs w dirs h1 := mem_hashDirs.mpr ⟨o1, ho1, rfl⟩
    have hmem2 : o2.root ∈ hashDirs w dirs h1 := mem_hashDirs.mpr ⟨o2, ho2x, rfl⟩
    obtain ⟨a, ha⟩ := Finset.card_eq_one.mp hcard1
    rw [ha, Finset.mem_singleton] at hmem1 hmem2
    rw [← hroot1, ← hroot2, hmem1, hmem2]

/-- Witness for C10: the hypotheses hold of the renamed-duplicate world and
the name-mode part applies to x.txt, unique to cA. -/
theorem C10_witness : (["cA"] : DirPath) = ["cA"] :=
  (C10_at_most_one W3 [["cA"], ["cB"]] (by decide) (by decide)).1 "x.txt"
    ["cA"] (by decide) ["cA"] (by decide) (by decide) (by decide)

/-- C2 counterexample: in the nested-content world, nA/sub/f.txt is scanned
and hashed to P, P occurs in no other directory (dirs_present = {nA}), yet
f.txt is not reported unique to nA — the claimed inclusion "regardless of
depth under the root" fails, because line 66 demands the file's immediate
parent be an input root. -/
theorem C2_counterexample :
    ("P", Occ.mk ["nA"] nestedF) ∈ contentOccs W2 [["nA"], ["nB"]]
    ∧ hashDirs W2 [["nA"], ["nB"]] "P" = {["nA"]}
    ∧ "f.txt" ∉ get_unique_files_by_content W2 [["nA"], ["nB"]] ["nA"] :=
  ⟨by decide, by decide, by decide⟩

/-- C2 amended: a scanned readable file whose hash occurs in no other input
directory is reported unique to its directory provided additionally that
its immediate parent directory is one of the input roots. -/
theorem C2_amended_root_level_unique (w : World) (dirs : List DirPath)
    (d : DirPath) (e : FSEntry) (hd : d ∈ dirs) (hdir : w.isDir d = true)
    (he : e ∈ w.entries d) (hvis : visible e = true) (hre : e.readable = true)
    (honly : ∀ p ∈ contentOccs w dirs, p.1 = e.content → p.2.root = d)
    (hpar : (d ++ e.comps).dropLast ∈ dirs) :
    e.name ∈ get_unique_files_by_content w dirs d := by
  have hh : calculate_file_hash e = some e.content := by
    simp [calculate_file_hash, hre]
  have ho : (e.content, Occ.mk d e) ∈ contentOccs w dirs :=
    mem_contentOccs.mpr ⟨hd, hdir, he, hvis, hh⟩
  have hset : hashDirs w dirs e.content = {d} := by
    apply Finset.eq_singleton_iff_unique_mem.mpr
    refine ⟨mem_hashDirs.mpr ⟨Occ.mk d e, ho, rfl⟩, ?_⟩
    intro r hr
    obtain ⟨o, hocc, hroot⟩ := mem_hashDirs.mp hr
    rw [← hroot]
    exact honly (e.content, o) hocc rfl
  refine mem_uniqueContent.mpr ⟨(e.content, Occ.mk d e), ho, ?_, rfl, hpar, rfl⟩
  rw [hset]
  exact Finset.card_singleton d

/-- Witness for C2 (amended): cB/g.txt has content Q found nowhere else and
sits at root level, so g.txt is unique to cB. -/
theorem C2_witness :
    "g.txt" ∈ get_unique_files_by_content W3 [["cA"], ["cB"]] ["cB"] :=
  C2_amended_root_level_unique W3 [["cA"], ["cB"]] ["cB"]
    (FSEntry.mk ["g.txt"] true false "Q" true) (by decide) (by decide) (by decide)
    (by decide) (by decide) (by decide) (by decide)

/-- C3: two scanned files with equal hashes located under two different
input directories are reported unique nowhere, whatever their (possibly
differing) names: when every scanned file bearing either name also carries
the shared hash, neither name appears in any directory's content-mode
unique set. -/
theorem C3_duplicate_content_excluded (w : World) (dirs : List DirPath)
    (h : String) (o1 o2 : Occ)
    (h1 : (h, o1) ∈ contentOccs w dirs) (h2 : (h, o2) ∈ contentOccs w dirs)
    (hne : o1.root ≠ o2.root)
    (ha1 : ∀ p ∈ contentOccs w dirs, p.2.entry.name = o1.entry.name → p.1 = h)
    (ha2 : ∀ p ∈ contentOccs w dirs, p.2.entry.name = o2.entry.name → p.1 = h) :
    ∀ d : DirPath, o1.entry.name ∉ get_unique_files_by_content w dirs d
      ∧ o2.entry.name ∉ get_unique_files_by_content w dirs d := by
  have hcard : (hashDirs w dirs h).card ≠ 1 :=
    hashDirs_card_ne_one (mem_hashDirs.mpr ⟨o1, h1, rfl⟩)
      (mem_hashDirs.mpr ⟨o2, h2, rfl⟩) hne
  intro d
  constructor
  · intro hmem
    obtain ⟨p, hp, hc, _, _, hname⟩ := mem_uniqueContent.mp hmem
    rw [ha1 p hp hname] at hc
    exact hcard hc
  · intro hmem
    obtain ⟨p, hp, hc, _, _, hname⟩ := mem_uniqueContent.mp hmem
    rw [ha2 p hp hname] at hc
    exact hcard hc

/-- Witness for C3 at the spec scenario: cA/x.txt and cB/y.txt share
content P under different names, and neither x.txt nor y.txt is reported
unique. -/
theorem C3_witness :
    "x.txt" ∉ get_unique_files_by_content W3 [["cA"], ["cB"]] ["cA"]
    ∧ "y.txt" ∉ get_unique_files_by_content W3 [["cA"], ["cB"]] ["cB"] :=
  ⟨(C3_duplicate_content_excluded W3 [["cA"], ["cB"]] "P" (Occ.mk ["cA"] xP)
      (Occ.mk ["cB"] yP) (by decide) (by decide) (by decide) (by decide) (by decide)
      ["cA"]).1,
   (C3_duplicate_content_excluded W3 [["cA"], ["cB"]] "P" (Occ.mk ["cA"] xP)
      (Occ.mk ["cB"] yP) (by decide) (by decide) (by decide) (by decide) (by decide)
      ["cB"]).2⟩

/-- C4: content mode adds a name to a directory's set only through an
occurrence whose immediate parent is an input root; a file whose every
scanned occurrence of its name lies in a nested subdirectory is reported
unique nowhere, even when its hash occurs in exactly one directory. -/
theorem C4_root_level_only (w : World) (dirs : List DirPath) :
    (∀ d n, n ∈ get_unique_files_by_content w dirs d →
      ∃ p ∈ contentOccs w dirs,
        p.2.entry.name = n ∧ p.2.root = d ∧ p.2.parent ∈ dirs)
    ∧ (∀ nm : String,
        (∀ p ∈ contentOccs w dirs, p.2.entry.name = nm → p.2.parent ∉ dirs) →
        ∀ d, nm ∉ get_unique_files_by_content w dirs d) := by
  constructor
  · intro d n hmem
    obtain ⟨p, hp, _, hroot, hpar, hname⟩ := mem_uniqueContent.mp hmem
    exact ⟨p, hp, hname, hroot, hpar⟩
  · intro nm hall d hmem
    obtain ⟨p, hp, _, _, hpar, hname⟩ := mem_uniqueContent.mp hmem
    exact hall p hp hname hpar

/-- Witness for C4: nA/sub/f.txt carries the only occurrence of hash P, yet
f.txt is unique to no directory, its parent nA/sub not being a root. -/
theorem C4_witness :
    "f.txt" ∉ get_unique_files_by_content W2 [["nA"], ["nB"]] ["nA"] :=
  (C4_root_level_only W2 [["nA"], ["nB"]]).2 "f.txt" (by decide) ["nA"]

/-- C5 counterexample: the scan of hA includes vis.txt even though it lies
underneath the dot-prefixed directory .hid — rglob descends into hidden
directories and only the final filename is filtered. -/
theorem C5_counterexample :
    hiddenNestedF ∈ W5.entries ["hA"]
    ∧ hiddenNestedF.comps = [".hid", "vis.txt"]
    ∧ "vis.txt" ∈ scanNames W5 ["hA"] :=
  ⟨by decide, by decide, by decide⟩

/-- C5 amended: scanning excludes exactly the entries whose final filename
starts with a dot, so no dot-prefixed name appears in any scan result or
unique set; but hidden directories are still descended into, and any file
entry whose own final name is not dot-prefixed is scanned regardless of
hidden ancestors. -/
theorem C5_amended_final_name_filter :
    (∀ (w : World) (d : DirPath) (n : String),
        n ∈ scanNames w d → startsWithDot n = false)
    ∧ (∀ (w : World) (dirs : List DirPath) (d : DirPath) (n : String),
        n ∈ uniqueByName w dirs d → startsWithDot n = false)
    ∧ (∀ (w : World) (dirs : List DirPath) (d : DirPath) (n : String),
        n ∈ get_unique_files_by_content w dirs d → startsWithDot n = false)
    ∧ (∀ (w : World) (d : DirPath) (e : FSEntry),
        e ∈ w.entries d → e.isFile = true → startsWithDot e.name = false →
        e.name ∈ scanNames w d) := by
  have hscan : ∀ (w : World) (d : DirPath) (n : String),
      n ∈ scanNames w d → startsWithDot n = false := by
    intro w d n hn
    obtain ⟨e, he, hvis, hname⟩ := mem_scanNames.mp hn
    have hv := hvis
    simp [visible] at hv
    rw [← hname]
    exact hv.2
  refine ⟨hscan, ?_, ?_, ?_⟩
  · intro w dirs d n hn
    exact hscan w d n (mem_uniqueByName.mp hn).1
  · intro w dirs d n hn
    obtain ⟨p, hp, _, _, _, hname⟩ := mem_uniqueContent.mp hn
    obtain ⟨_, _, _, hvis, _⟩ := mem_contentOccs.mp hp
    have hv := hvis
    simp [visible] at hv
    rw [← hname]
    exact hv.2
  · intro w d e he hf hdot
    exact mem_scanNames.mpr ⟨e, he, by simp [visible, hf, hdot], rfl⟩

/-- Witness for C5 (amended): the scanned name vis.txt is not
dot-prefixed. -/
theorem C5_witness : startsWithDot "vis.txt" = false :=
  C5_amended_final_name_filter.1 W5 ["hA"] "vis.txt" (by decide)

/-- C6 counterexample: the parser defines no --follow-symlinks option, and
with no flag at all the symlinked file sA/link.txt is nevertheless included
in the scan of sA. -/
theorem C6_counterexample :
    "--follow-symlinks" ∉ cliOptionFlags
    ∧ linkF ∈ W6.entries ["sA"] ∧ linkF.isSymlink = true
    ∧ "link.txt" ∈ scanNames W6 ["sA"] :=
  ⟨by decide, by decide, by decide, by decide⟩

/-- C6 amended: the CLI exposes no --follow-symlinks flag (the only option
flag is --by-content), and scan results are independent of symlink status:
rewriting every entry's symlink flag arbitrarily leaves every scanned name
set unchanged, in both modes alike. -/
theorem C6_amended_no_symlink_flag :
    (∀ (w : World) (f : FSEntry → Bool) (d : DirPath),
        scanNames (World.mapSym w f) d = scanNames w d)
    ∧ "--follow-symlinks" ∉ cliOptionFlags := by
  constructor
  · intro w f d
    show ((((w.entries d).map (fun e => e.setSym (f e))).filter visible).map
        FSEntry.name).toFinset =
      (((w.entries d).filter visible).map FSEntry.name).toFinset
    rw [List.filter_map, List.map_map]
    rfl
  · decide

/-- Witness for C6 (amended): clearing the symlink flags of the symlink
world changes no scanned names. -/
theorem C6_witness :
    scanNames (World.mapSym W6 (fun _ => false)) ["sA"] = scanNames W6 ["sA"] :=
  C6_amended_no_symlink_flag.1 W6 (fun _ => false) ["sA"]

/-- Filtering by a predicate and then by its negation leaves nothing. -/
theorem filter_not_self {α : Type} (p : α → Bool) (l : List α) :
    (l.filter p).filter (fun a => !p a) = [] := by
  rw [List.filter_filter]
  have h : ∀ a : α, (!p a && p a) = false := by
    intro a
    cases p a <;> rfl
  simp [h]

/-- C8 counterexample: with valid roots vA, vB and an invalid third
argument vC, the run drops vC and succeeds with an empty stderr — no
diagnostic for the dropped path is ever produced. -/
theorem C8_counterexample :
    mainRun W8 [["vA"], ["vB"], ["vC"]] false =
      RunResult.mk 0 [] [["vA"], ["vB"]] := by
  decide

/-- C8 amended: a supplied path that is not a directory is dropped silently
(a successful name-mode run prints nothing on stderr); the run exits 1 with
a diagnostic on stderr exactly when fewer than 2 arguments were given or
fewer than 2 valid directories remain, and otherwise exits 0 comparing
precisely the valid directories. -/
theorem C8_amended_exit_behavior (w : World) (args : List DirPath) (b : Bool) :
    ((mainRun w args b).exitCode = 1 ↔
      args.length < 2 ∨ (args.filter w.isDir).length < 2)
    ∧ ((mainRun w args b).exitCode = 1 → (mainRun w args b).stderr ≠ [])
    ∧ ((mainRun w args b).exitCode = 0 →
        (mainRun w args b).compared = args.filter w.isDir)
    ∧ ((mainRun w args false).exitCode = 0 → (mainRun w args false).stderr = []) := by
  unfold mainRun
  by_cases h1 : args.length < 2
  · simp [h1]
  · by_cases h2 : (args.filter w.isDir).length < 2
    · simp [h1, h2]
    · simp [h1, h2, filter_not_self, scanErrors]

/-- Witness for C8 (amended): a run with one valid and one invalid argument
exits 1 with a nonempty stderr. -/
theorem C8_witness :
    (mainRun W8 [["vA"], ["vC"]] false).exitCode = 1 ∧
      (mainRun W8 [["vA"], ["vC"]] false).stderr ≠ [] :=
  ⟨(C8_amended_exit_behavior W8 [["vA"], ["vC"]] false).1.mpr (by decide),
   (C8_amended_exit_behavior W8 [["vA"], ["vC"]] false).2.1
     ((C8_amended_exit_behavior W8 [["vA"], ["vC"]] false).1.mpr (by decide))⟩

/-- C9 counterexample: directory A9 owns 51 unique filenames and the report
lists all 51 of them — no 50-entry cap, no remaining-count note. -/
theorem C9_counterexample :
    (u9 ["A9"]).card = 51 ∧ (reportRows [["A9"]] u9).length = 51 := by
  constructor
  · decide
  · rw [reportRows, Finset.length_sort]
    show (allUniqueNames [["A9"]] u9).card = 51
    rw [show allUniqueNames [["A9"]] u9 = u9 ["A9"] ∪ ∅ from rfl, Finset.union_empty]
    decide

/-- C9 amended: the report lists every unique filename across the compared
directories, each exactly once, in ascending lexicographic order, with no
cap or truncation; the footer counts are the exact sizes of the
per-directory unique sets. -/
theorem C9_amended_report (dirs : List DirPath) (uniq : DirPath → Finset String) :
    List.Sorted (· ≤ ·) (reportRows dirs uniq)
    ∧ (∀ n, n ∈ reportRows dirs uniq ↔ ∃ d ∈ dirs, n ∈ uniq d)
    ∧ (reportRows dirs uniq).Nodup
    ∧ (∀ d ∈ dirs, (uniq d).card ∈ reportCounts dirs uniq) := by
  refine ⟨Finset.sort_sorted _ _, ?_, Finset.sort_nodup _ _, ?_⟩
  · intro n
    rw [reportRows, Finset.mem_sort]
    exact mem_allUniqueNames
  · intro d hd
    have hmem : d ∈ sortedDirs dirs := by
      rw [sortedDirs]
      exact (List.mergeSort_perm dirs _).mem_iff.mpr hd
    exact List.mem_map.mpr ⟨d, hmem, rfl⟩

/-- Witness for C9 (amended): A9's true count of 51 appears in the footer
counts. -/
theorem C9_witness : (u9 ["A9"]).card ∈ reportCounts [["A9"]] u9 :=
  (C9_amended_report [["A9"]] u9).2.2.2 ["A9"] (by decide)
